import Mathlib

/-!
# Verification of the `ore_algebra.analytic` core

Shallow embedding, in Lean 4, of the parts of the `ore_algebra` analytic
continuation core (files `local_solutions.py`, `path.py`,
`analytic_continuation.py`, `naive_sum.py`, `context.py`) that the
specification claims refer to, together with theorems settling each claim.

Modelling conventions:
* algebraic numbers (roots of indicial polynomials, valuations) are
  represented by pairs `ℚ × ℚ` of their real and imaginary parts;
* certified ball/interval quantities (step lengths, distances to
  singularities) are represented by exact rationals — the ball-arithmetic
  layer is an external collaborator in the specification;
* external services (the shiftless decomposition of the indicial
  polynomial, the summation backends, the tail-bound service) are inputs of
  the embedded functions, so the theorems quantify over their outputs;
* Python exceptions are `Except` values, `try`/`except` blocks are matches
  on them.
-/

namespace LocalSolutions

/-- Exceptions raised by the embedded code (`PrecisionError`, `ValueError`,
`NotImplementedError`). -/
inductive Err where
  | precisionError
  | valueError
  | notImplementedError
deriving DecidableEq, Repr

/-- `local_solutions.FundamentalSolution`: a record
`(leftmost, shift, log_power, value)` describing one element of the local
basis at a regular singular point.  `leftmost` is an algebraic number,
represented by its real and imaginary parts; the computed `value` is
irrelevant to the ordering claims and is kept as an opaque option. -/
structure FundamentalSolution where
  leftmost : ℚ × ℚ
  shift : ℕ
  log_power : ℕ
  value : Option Unit
deriving DecidableEq, Repr

/-- `FundamentalSolution.valuation`: `leftmost + shift`, as (re, im). -/
def FundamentalSolution.valuation (s : FundamentalSolution) : ℚ × ℚ :=
  (s.leftmost.1 + (s.shift : ℚ), s.leftmost.2)

/-- Sage's `sign()` on a real number: `-1`, `0` or `1`. -/
def qSign (q : ℚ) : ℤ :=
  if q < 0 then -1 else if q = 0 then 0 else 1

/-- The codomain of `sort_key_by_asympt`: a 4-tuple compared
lexicographically, as Python compares tuples. -/
abbrev AsymptKey := Lex (ℚ × Lex (ℤ × Lex (ℚ × ℤ)))

/-- `local_solutions.sort_key_by_asympt`: the sort key
`(re, -log_power, -abs im, sign im)` of the valuation `re + im·I` of a
solution.  Lists of solutions are sorted in *increasing* key order (Python's
`list.sort`). -/
def sort_key_by_asympt (s : FundamentalSolution) : AsymptKey :=
  toLex ((s.valuation.1,
    toLex ((-(s.log_power : ℤ)),
      toLex ((-|s.valuation.2|), qSign s.valuation.2))))

/-- The comparison `sort_key_by_asympt a ≤ sort_key_by_asympt b` used when
sorting the local basis. -/
def asympt_le (a b : FundamentalSolution) : Prop :=
  sort_key_by_asympt a ≤ sort_key_by_asympt b

instance : DecidableRel asympt_le := fun a b =>
  inferInstanceAs (Decidable (sort_key_by_asympt a ≤ sort_key_by_asympt b))

instance : IsTotal FundamentalSolution asympt_le :=
  ⟨fun a b => le_total (sort_key_by_asympt a) (sort_key_by_asympt b)⟩

instance : IsTrans FundamentalSolution asympt_le :=
  ⟨fun _ _ _ h h' => le_trans h h'⟩

/-- One entry `(sl_factor, shifts)` of the shiftless decomposition of the
indicial polynomial, as consumed by `LocalBasisMapper.run`: the irreducible
factors of `sl_factor` are represented by their root sets (each root being a
"leftmost" exponent), and `shifts` lists the pairs `(shift, multiplicity)`
of the class. -/
structure ShiftlessClass where
  irred_factors : List (List (ℚ × ℚ))
  shifts : List (ℕ × ℕ)
deriving DecidableEq, Repr

/-- The nested loops of `LocalBasisMapper.run` /
`process_irred_factor` / `process_modZ_class` / `process_valuation` /
`process_solution`: for every shiftless-decomposition class, every
irreducible factor, every root (leftmost exponent), every `(shift, mult)`
(largest shift first) and every log power below `mult` (largest first),
emit one `FundamentalSolution` (with `value = fun ini`, which the base
class leaves at `None`). -/
def localBasisCols (sl_decomp : List ShiftlessClass) : List FundamentalSolution :=
  sl_decomp.flatMap (fun cls =>
    cls.irred_factors.flatMap (fun roots =>
      roots.flatMap (fun lm =>
        cls.shifts.reverse.flatMap (fun sm =>
          (List.range sm.2).reverse.map (fun p =>
            { leftmost := lm, shift := sm.1, log_power := p, value := none })))))

/-- `LocalBasisMapper.run`, as a function of the shiftless decomposition of
the indicial polynomial (an external service): emit every solution, then
`cols.sort(key=sort_key_by_asympt)`.  Python's sort is modelled by
`List.insertionSort` (both are stable, so they agree). -/
def LocalBasisMapper_run (sl_decomp : List ShiftlessClass) : List FundamentalSolution :=
  List.insertionSort asympt_le (localBasisCols sl_decomp)

end LocalSolutions

namespace PathModel

open LocalSolutions

/-- `path.Point`, restricted to the attributes the claims about `path.py`
use: its classification flags and its certified distance to the nearest
*other* singularity of the operator (`dist_to_sing()`, an external
ball-arithmetic computation, represented by its exact value). -/
structure Point where
  is_ordinary : Bool
  is_regular : Bool
  dist_to_sing : ℚ
deriving DecidableEq, Repr

/-- `Point.is_regular_singular()`: not ordinary and regular. -/
def Point.is_regular_singular (p : Point) : Bool :=
  !p.is_ordinary && p.is_regular

/-- `path.Step`, restricted to what `check_convergence` uses: its two
endpoints and its length `|end - start|` (a ball-arithmetic quantity,
represented by its exact value). -/
structure Step where
  start : Point
  stop : Point
  length : ℚ
deriving DecidableEq, Repr

/-- `Step.check_convergence()`: pick the end point if it is regular
singular, the start point otherwise, and raise `ValueError` when the step's
length reaches that point's distance to the singularities. -/
def Step.check_convergence (s : Step) : Except Err Unit :=
  let ref := if s.stop.is_regular_singular then s.stop else s.start
  if ref.dist_to_sing ≤ s.length then
    Except.error Err.valueError
  else
    Except.ok ()

/-- `Point.local_basis_structure()`, as a function of the operator's order
and of the shiftless decomposition of its indicial polynomial at the point
(used only in the regular singular branch): at an ordinary point, return the
`order` trivial solutions `FundamentalSolution(0, expo, 0, None)` for
`expo = 0, …, order-1`; at an irregular point raise `NotImplementedError`;
at a regular singular point delegate to `LocalBasisMapper.run`. -/
def Point.local_basis_structure (p : Point) (order : ℕ)
    (sl_decomp : List ShiftlessClass) : Except Err (List FundamentalSolution) :=
  if p.is_ordinary then
    Except.ok ((List.range order).map (fun expo =>
      { leftmost := (0, 0), shift := expo, log_power := 0, value := none }))
  else if !p.is_regular then
    Except.error Err.notImplementedError
  else
    Except.ok (LocalBasisMapper_run sl_decomp)

end PathModel

namespace PointIdentity

/-- `path.Point`, for the object-identity claim: a Python object has an
identity `id(self)` (the field `oid`, distinct for distinct objects) in
addition to its mathematical data (numeric value and operator, the latter
represented by a label). -/
structure PyPoint where
  oid : ℕ
  value : ℚ × ℚ
  dop : ℕ
deriving DecidableEq, Repr

/-- `Point.__eq__`: `self is other`, i.e. identity of the two objects. -/
def pointEq (p q : PyPoint) : Bool :=
  p.oid == q.oid

/-- `Point.__hash__`: `id(self)`. -/
def pointHash (p : PyPoint) : ℕ :=
  p.oid

end PointIdentity

namespace Continuation

/-- Exceptions of `analytic_continuation.step_transition_matrix`:
`PrecisionError`/`BoundPrecisionError` (merged — they are caught by the same
handler) and `ValueError`. -/
inductive Err where
  | precisionError
  | valueError
deriving DecidableEq, Repr

/-- `path.Point`, restricted to the attributes `step_transition_matrix` and
`Step.split` consult: the numeric value (re, im) and the classification
flags. -/
structure Point where
  value : ℚ × ℚ
  is_ordinary : Bool
  is_regular : Bool
  is_exact : Bool
deriving DecidableEq, Repr

/-- `path.Step`, restricted to what `step_transition_matrix` uses: the two
endpoints and the split budget `max_split` (3 by default). -/
structure Step where
  start : Point
  stop : Point
  max_split : ℕ
deriving DecidableEq, Repr

/-- `Step.split()`: cut the step at `(start + 2·end)/3` if the start is
singular, at `(2·start + end)/3` if the end is singular, and at the midpoint
`(start + end)/2` otherwise, decrementing the split budget of both halves.
The cut point (`mid.rationalize()` in the source: a nearby exact rational
point away from every singularity, hence ordinary) is modelled by the exact
cut value. -/
def Step.split (s : Step) : Step × Step :=
  let mid : ℚ × ℚ :=
    if !s.start.is_ordinary then
      ((s.start.value.1 + 2 * s.stop.value.1) / 3,
       (s.start.value.2 + 2 * s.stop.value.2) / 3)
    else if !s.stop.is_ordinary then
      ((2 * s.start.value.1 + s.stop.value.1) / 3,
       (2 * s.start.value.2 + s.stop.value.2) / 3)
    else
      ((s.start.value.1 + s.stop.value.1) / 2,
       (s.start.value.2 + s.stop.value.2) / 2)
  let midPoint : Point :=
    { value := mid, is_ordinary := true, is_regular := true, is_exact := true }
  ({ start := s.start, stop := midPoint, max_split := s.max_split - 1 },
   { start := midPoint, stop := s.stop, max_split := s.max_split - 1 })

/-- Symbolic transition matrices: the value returned by
`step_transition_matrix` is recorded as an expression showing which
summations, products and inversions produced it.  `summed step eps rows`
stands for the output of `regular_step_transition_matrix` on that step;
`identity order rows` is `identity_matrix(ZZ, order)[:rows]`; `zeroByZero`
is `matrix(ZZ)`. -/
inductive MatExpr where
  | zeroByZero
  | identity (order rows : ℕ)
  | summed (step : Step) (eps : ℚ) (rows : ℕ)
  | mul (a b : MatExpr)
  | inverse (a : MatExpr)
deriving DecidableEq, Repr

/-- The step classification of `step_transition_matrix` (the `elif` chain,
lines 58–75): decide which step actually gets summed (the step itself, or
its reversal), whether the result must be inverted, and with which target
error; an unsupported combination (irregular point) raises `ValueError`. -/
def classify_step (step : Step) (eps : ℚ) : Except Err (Step × Bool × ℚ) :=
  let z0 := step.start
  let z1 := step.stop
  if z0.is_ordinary && z1.is_ordinary then
    if z0.is_exact then
      Except.ok (step, false, eps)
    else
      Except.ok ({ start := z1, stop := z0, max_split := 0 }, true, eps)
  else if z0.is_regular && z1.is_ordinary then
    Except.ok (step, false, eps)
  else if z0.is_ordinary && z1.is_regular then
    Except.ok ({ start := z1, stop := z0, max_split := 3 }, true, eps / 2)
  else
    Except.error Err.valueError

/-- The `try`/`except` block of `step_transition_matrix` (lines 76–86):
attempt the summation (`regular_step_transition_matrix`, abstracted by the
oracle `fails`); on a precision failure, re-raise if the split budget is
exhausted, otherwise split the step and recombine the two recursively
computed sub-matrices (`rec` is the recursive call at the next depth) as
`m1 * m0`, the second sub-step keeping the requested rows. -/
def stm_try (fails : Step → ℚ → Bool)
    (rec : Step → ℚ → Option ℕ → Except Err MatExpr)
    (step1 : Step) (eps1 : ℚ) (rows : ℕ) : Except Err MatExpr :=
  if fails step1 eps1 then
    if step1.max_split = 0 then
      Except.error Err.precisionError
    else
      match rec step1.split.1 (eps1 / 4) none with
      | Except.error e => Except.error e
      | Except.ok m0 =>
        match rec step1.split.2 (eps1 / 4) (some rows) with
        | Except.error e => Except.error e
        | Except.ok m1 => Except.ok (MatExpr.mul m1 m0)
  else
    Except.ok (MatExpr.summed step1 eps1 rows)

/-- `analytic_continuation.step_transition_matrix(dop, step, eps, rows)`.

The operator is represented by its order; the summation backends
(`regular_step_transition_matrix`) are an external service represented by
the oracle `fails`, which tells for which `(step, eps)` they raise a
retryable precision error (their value, when they succeed, is the symbolic
`MatExpr.summed`).  `rowsArg = none` is Python's `rows=None`.  The `fuel`
argument only makes the recursion structural; every claim is stated with
enough fuel for the fuel-exhaustion branch to be unreachable. -/
def step_transition_matrix (fails : Step → ℚ → Bool) (order : ℕ) :
    ℕ → Step → ℚ → Option ℕ → Except Err MatExpr
  | 0, _, _, _ => Except.error Err.precisionError
  | fuel + 1, step, eps, rowsArg =>
    let rows := rowsArg.getD order
    if order = 0 then
      Except.ok MatExpr.zeroByZero
    else if step.start.value = step.stop.value then
      Except.ok (MatExpr.identity order rows)
    else
      match classify_step step eps with
      | Except.error e => Except.error e
      | Except.ok (step1, doInverse, eps1) =>
        match stm_try fails (step_transition_matrix fails order fuel)
            step1 eps1 rows with
        | Except.error e => Except.error e
        | Except.ok m => Except.ok (if doInverse then MatExpr.inverse m else m)

end Continuation

namespace NaiveSum

/-- Modelled from the spec: `utilities.prec_from_eps` is code of this
repository that is not among the source files under `src/` (it lives in
`utilities.py`).  Per the spec, the working precision is "derived from the
requested error (`bits ≈ -log2(eps)`, padded)"; we model the bit count
`-log2(eps)` as `⌈log₂ ⌈1/eps⌉⌉`. -/
def prec_from_eps (eps : ℚ) : ℕ :=
  Nat.clog 2 (Nat.ceil eps⁻¹)

/-- `naive_sum.series_sum_ordinary`, lines 215–216: the starting working
precision `bit_prec = prec_from_eps(eps)` plus the padding
`3 * bit_prec.nbits()`. -/
def initial_prec (eps : ℚ) : ℕ :=
  let bit_prec := prec_from_eps eps
  bit_prec + 3 * Nat.size bit_prec

/-- The retry loop of `naive_sum.series_sum_ordinary` (lines 217–225):
run `series_sum_ordinary_doit` (the external summation pass, abstracted as
`doit`, whose `PrecisionError` is `none`) at the current working precision,
and on failure retry with the precision doubled.  The source loop is
unbounded (`while True`); `fuel` bounds it for termination. -/
def sum_autoprec {M : Type} (doit : ℕ → Option M) : ℕ → ℕ → Option M
  | 0, _ => none
  | fuel + 1, bit_prec =>
    match doit bit_prec with
    | some res => some res
    | none => sum_autoprec doit fuel (2 * bit_prec)

/-- `naive_sum.series_sum_ordinary`, precision-driver part: derive the
starting precision from the target error, then run the retry loop. -/
def series_sum_ordinary {M : Type} (doit : ℕ → Option M) (fuel : ℕ)
    (eps : ℚ) : Option M :=
  sum_autoprec doit fuel (initial_prec eps)

end NaiveSum

namespace LogSeries

variable {C : Type} [Field C]

/-- `Polynomial._mul_trunc_`: product of two jets (dense coefficient lists)
truncated to `ord` coefficients. -/
def mulTrunc (a b : List C) (ord : ℕ) : List C :=
  (List.range ord).map (fun i =>
    ((List.range (i + 1)).map (fun j => a.getD j 0 * b.getD (i - j) 0)).sum)

/-- Jet addition (coefficientwise, the shorter list padded with zeros). -/
def addJet (a b : List C) : List C :=
  (List.range (max a.length b.length)).map (fun i => a.getD i 0 + b.getD i 0)

/-- Sum of a list of jets (the `+=` accumulation and `sum(...)` calls). -/
def jetSum (l : List (List C)) : List C :=
  l.foldr addJet []

/-- Multiplication of a jet by a scalar. -/
def smulJet (c : C) (a : List C) : List C :=
  a.map (fun x => c * x)

/-- Loop body of `local_solutions._pow_trunc` (binary powering):
state `(pow, pow2k, n)`, structural fuel. -/
def powTruncGo (ord : ℕ) : ℕ → List C → List C → ℕ → List C
  | 0, pow, _, _ => pow
  | fuel + 1, pow, pow2k, n =>
    if n = 0 then pow
    else
      powTruncGo ord fuel
        (if n % 2 = 1 then mulTrunc pow pow2k ord else pow)
        (mulTrunc pow2k pow2k ord)
        (n / 2)

/-- `local_solutions._pow_trunc(a, n, ord)`: `a^n` truncated to `ord`
coefficients, by square-and-multiply (`n` itself is enough fuel, since the
exponent at least halves at every iteration). -/
def pow_trunc (a : List C) (n ord : ℕ) : List C :=
  powTruncGo ord n [1] a n

/-- The numeric inputs of `log_series_values` attached to the evaluation
point: the external ball-arithmetic values `pt`, `~pt`, `log(pt)`, `π·I`,
`pt^expo`, the complex exponential, and the exponent `expo` itself,
over an abstract complex field `C`. -/
structure LogPointData (C : Type) where
  pt : C
  ptInv : C
  logpt : C
  piI : C
  ptPowExpo : C
  exp : C → C
  expo : C

/-- Body of the `for b in evpt.branch` loop of
`local_solutions.log_series_values` (lines 516–532), for one branch index
`b` and one downshift `d`: uses `log(pt) + 2bπi` in place of `log(pt)` and
multiplies `pt^expo` by `exp(2bπi·expo)`.
`high` is the hardcoded jet of `log(pt+η) - log(pt)`, `inipow` the jet of
`(pt+η)^expo` on branch `b`, `logterms p` the jet of `log(pt+η)^p/p!`. -/
def branchTerm (dat : LogPointData C) (jet_order : ℕ) (psum : List (List C))
    (d : ℕ) (b : ℤ) : List C :=
  let log_prec := psum.length
  let high : List C :=
    0 :: (List.range (jet_order - 1)).map (fun k0 =>
      ((-1 : C) ^ ((k0 + 2 : ℕ)) * dat.ptInv ^ ((k0 + 1 : ℕ))) / ((k0 : C) + 1))
  let aux := smulJet dat.expo high
  let twobpii : C := 2 * (b : C) * dat.piI
  let logptJet := addJet [dat.logpt + twobpii] high
  let inipow :=
    smulJet (dat.exp (twobpii * dat.expo) * dat.ptPowExpo)
      (jetSum ((List.range jet_order).map (fun k =>
        smulJet ((Nat.factorial k : C))⁻¹ (pow_trunc aux k jet_order))))
  let logterms := (List.range log_prec).map (fun p =>
    smulJet ((Nat.factorial p : C))⁻¹ (pow_trunc logptJet p jet_order))
  mulTrunc inipow
    (jetSum ((List.range (log_prec - d)).map (fun p =>
      mulTrunc (psum.getD (d + p) []) (logterms.getD p []) jet_order)))
    jet_order

/-- `local_solutions.log_series_values`, numeric case: for every requested
downshift, accumulate the per-branch values over `branch` and divide the
first `jet_order` jet coefficients by the number of branches. -/
def log_series_values (dat : LogPointData C) (jet_order : ℕ)
    (psum : List (List C)) (branch : List ℤ) (downshift : List ℕ) :
    List (List C) :=
  downshift.map (fun d =>
    let v := jetSum (branch.map (branchTerm dat jet_order psum d))
    (List.range jet_order).map (fun i => v.getD i 0 / (branch.length : C)))

end LogSeries

namespace InitialValues

/-- One class `(sl_factor, shifts)` of the shiftless decomposition of the
indicial polynomial, as consumed by `LogSeriesInitialValues.is_valid_for`:
`sl_factor(x) = 0` is membership of `x` in the factor's root set, and
`shifts` lists the `(shift, multiplicity)` pairs of the class. -/
structure DecompClass where
  roots : List (ℚ × ℚ)
  shifts : List (ℤ × ℕ)
deriving DecidableEq, Repr

/-- `len(self.shift.get(s, ()))`: the number of initial coefficients the
supplied mapping carries at shift `s`.  The mapping (a Python dict) is an
association list with pairwise distinct keys, each key mapped to the length
of its coefficient tuple. -/
def lookupLen (ini : List (ℤ × ℕ)) (s : ℤ) : ℕ :=
  (ini.lookup s).getD 0

/-- Inner loop of `is_valid_for`: enumerate `(val_shift, mult)` over the
remaining suffix of `shifts`; at the first `val_shift` with
`sl_factor(expo - val_shift) = 0`, check that the mapping has exactly as
many keys as the remaining shifts and the dictated length at each of them
(`shifts[k:]`, re-based at `val_shift`). -/
def validInShifts (roots : List (ℚ × ℚ)) (expo : ℚ × ℚ)
    (ini : List (ℤ × ℕ)) : List (ℤ × ℕ) → Option Bool
  | [] => none
  | (val_shift, m) :: rest =>
    if (expo.1 - (val_shift : ℚ), expo.2) ∈ roots then
      some (decide (ini.length = ((val_shift, m) :: rest).length)
        && ((val_shift, m) :: rest).all
            (fun sm => lookupLen ini (sm.1 - val_shift) == sm.2))
    else
      validInShifts roots expo ini rest

/-- `LogSeriesInitialValues.is_valid_for(dop)`: scan the classes of the
shiftless decomposition for one whose factor vanishes at `expo - val_shift`
for some listed shift; valid iff such a class exists and the multiplicity
check of that class passes.  `expo` is `self.expo`, `ini` the mapping
`shift ↦ len(coefficient tuple)` of `self.shift`. -/
def is_valid_for (expo : ℚ × ℚ) (ini : List (ℤ × ℕ)) :
    List DecompClass → Bool
  | [] => false
  | cls :: rest =>
    match validInShifts cls.roots expo ini cls.shifts with
    | some b => b
    | none => is_valid_for expo ini rest

/-- The validation step of `LogSeriesInitialValues.__init__` (lines
240–244): with checking enabled and an operator supplied, raise
`ValueError` when `is_valid_for` rejects the data.  (The `except TypeError`
clause, which works around Sage coercion failures between `QQbar` and
number fields, has no counterpart for the concrete exponents modelled
here.) -/
def init_check (expo : ℚ × ℚ) (ini : List (ℤ × ℕ))
    (decomp : List DecompClass) (check hasDop : Bool) : Except Unit Unit :=
  if check && hasDop && !(is_valid_for expo ini decomp) then
    Except.error ()
  else
    Except.ok ()

end InitialValues

/-! ## Concrete instances used by counterexamples and witnesses -/

namespace Instances

/-- A shiftless decomposition with a single class: one irreducible factor
with the single root `0`, shifts `0` and `1`, both simple — the
decomposition seen at an ordinary point of an order-2 operator, or at `0`
for `x·Dx²+Dx - x·...`-style operators with indicial roots `{0, 1}`. -/
def decomp01 : List LocalSolutions.ShiftlessClass :=
  [{ irred_factors := [[((0 : ℚ), (0 : ℚ))]], shifts := [(0, 1), (1, 1)] }]

/-- A regular singular point at `0` (for an operator of order 1 whose
summation fails on the full step `0 → 1`). -/
def singZero : Continuation.Point :=
  { value := (0, 0), is_ordinary := false, is_regular := true, is_exact := true }

/-- An ordinary point at `1`. -/
def ordOne : Continuation.Point :=
  { value := (1, 0), is_ordinary := true, is_regular := true, is_exact := true }

/-- The step `0 → 1` out of the regular singular point `0`, with one unit
of split budget left. -/
def stepSingOut : Continuation.Step :=
  { start := singZero, stop := ordOne, max_split := 1 }

/-- A summation oracle that loses precision exactly on the full step
`0 → 1` and succeeds on every other step. -/
def failsOn01 : Continuation.Step → ℚ → Bool := fun s _ =>
  decide (s.start.value = ((0 : ℚ), (0 : ℚ)) ∧ s.stop.value = ((1 : ℚ), (0 : ℚ)))

/-- Concrete numeric data over `ℚ` for the branch-averaging witness (the
transcendental constants are arbitrary inputs of the embedded function). -/
def datQ : LogSeries.LogPointData ℚ :=
  { pt := 2, ptInv := 1/2, logpt := 0, piI := 1, ptPowExpo := 1,
    exp := fun _ => 1, expo := 0 }

end Instances

/-! ## Theorems -/

open LocalSolutions PathModel PointIdentity Continuation NaiveSum LogSeries InitialValues in
/-- C2: For every `Step`, `check_convergence()` raises an error if and
only if the step's length is greater than or equal to the
distance-to-singularity of the reference endpoint, where the reference
endpoint is the end point when it is regular singular and the start point
otherwise. -/
theorem claim_C2_check_convergence (s : PathModel.Step) :
    s.check_convergence = Except.error LocalSolutions.Err.valueError ↔
      s.length ≥
        (if s.stop.is_regular_singular then s.stop else s.start).dist_to_sing := by
  unfold PathModel.Step.check_convergence
  by_cases h :
      (if s.stop.is_regular_singular then s.stop else s.start).dist_to_sing ≤
        s.length <;>
    simp [h, ge_iff_le]

/-- C4: For every `Point` that is ordinary for its operator of order
`order`, `local_basis_structure()` returns exactly `order`
`FundamentalSolution` entries; the `k`-th entry is
`FundamentalSolution(leftmost=0, shift=k, log_power=0, value=None)`, so the
valuations are the integers `0, …, order-1` (leftmost exponent `0`) and the
log powers are all `0`. -/
theorem claim_C4_ordinary_local_basis (p : PathModel.Point) (order : ℕ)
    (sl_decomp : List LocalSolutions.ShiftlessClass)
    (hp : p.is_ordinary = true) :
    ∃ sols, p.local_basis_structure order sl_decomp = Except.ok sols ∧
      sols.length = order ∧
      ∀ k, k < order →
        sols.getD k { leftmost := (0, 0), shift := 0, log_power := 0, value := none } =
            { leftmost := (0, 0), shift := k, log_power := 0, value := none } ∧
          (sols.getD k { leftmost := (0, 0), shift := 0, log_power := 0, value := none }).valuation =
            ((k : ℚ), (0 : ℚ)) ∧
          (sols.getD k { leftmost := (0, 0), shift := 0, log_power := 0, value := none }).log_power = 0 := by
  refine ⟨(List.range order).map (fun expo =>
      { leftmost := (0, 0), shift := expo, log_power := 0, value := none }),
    ?_, by simp, ?_⟩
  · simp [PathModel.Point.local_basis_structure, hp]
  intro k hk
  have hget :
      ((List.range order).map (fun expo =>
          ({ leftmost := (0, 0), shift := expo, log_power := 0, value := none } :
            LocalSolutions.FundamentalSolution))).getD k
        { leftmost := (0, 0), shift := 0, log_power := 0, value := none } =
        { leftmost := (0, 0), shift := k, log_power := 0, value := none } := by
    rw [List.getD_eq_getElem?_getD, List.getElem?_map, List.getElem?_range hk]
    rfl
  refine ⟨hget, ?_, ?_⟩ <;>
    simp [hget, LocalSolutions.FundamentalSolution.valuation, List.getElem?_range hk]

/-- Witness for C4 at a concrete ordinary point and order 2. -/
theorem claim_C4_ordinary_local_basis_witness :
    ∃ sols,
      PathModel.Point.local_basis_structure
          { is_ordinary := true, is_regular := true, dist_to_sing := 1 } 2 [] =
        Except.ok sols ∧
      sols.length = 2 ∧
      ∀ k, k < 2 →
        sols.getD k { leftmost := (0, 0), shift := 0, log_power := 0, value := none } =
            { leftmost := (0, 0), shift := k, log_power := 0, value := none } ∧
          (sols.getD k { leftmost := (0, 0), shift := 0, log_power := 0, value := none }).valuation =
            ((k : ℚ), (0 : ℚ)) ∧
          (sols.getD k { leftmost := (0, 0), shift := 0, log_power := 0, value := none }).log_power = 0 :=
  claim_C4_ordinary_local_basis
    { is_ordinary := true, is_regular := true, dist_to_sing := 1 } 2 [] rfl

/-- C10: `Point` equality is object identity: `p == q` holds iff `p`
and `q` are the same object (same `id`), the hash is the object id, and two
distinct `Point` objects with the same numeric value and the same operator
compare unequal. -/
theorem claim_C10_point_identity (p q : PointIdentity.PyPoint) :
    (PointIdentity.pointEq p q = true ↔ p.oid = q.oid) ∧
    PointIdentity.pointHash p = p.oid ∧
    (p.value = q.value → p.dop = q.dop → p.oid ≠ q.oid →
      PointIdentity.pointEq p q = false) := by
  refine ⟨by simp [PointIdentity.pointEq], rfl, ?_⟩
  intro _ _ hne
  simpa [PointIdentity.pointEq] using hne

/-- Witness for C10: two distinct objects holding the same value `1/2` and
the same operator label compare unequal. -/
theorem claim_C10_point_identity_witness :
    PointIdentity.pointEq { oid := 0, value := (1/2, 0), dop := 7 }
        { oid := 1, value := (1/2, 0), dop := 7 } = false :=
  (claim_C10_point_identity
      { oid := 0, value := (1/2, 0), dop := 7 }
      { oid := 1, value := (1/2, 0), dop := 7 }).2.2 rfl rfl (by decide)

/-- C7: For every `LogSeriesInitialValues` constructed with checking
enabled against an operator, the constructor raises `ValueError` exactly
when the supplied `shift ↦ coefficients` mapping fails `is_valid_for`, i.e.
does not match the shift-equivalence class structure of the operator's
indicial polynomial (the class containing the leftmost exponent, with the
same number of shifts and the dictated multiplicity at each shift);
matching inputs are accepted. -/
theorem claim_C7_initial_values_check (expo : ℚ × ℚ) (ini : List (ℤ × ℕ))
    (decomp : List InitialValues.DecompClass) :
    (InitialValues.init_check expo ini decomp true true = Except.error () ↔
      InitialValues.is_valid_for expo ini decomp = false) ∧
    (InitialValues.init_check expo ini decomp true true = Except.ok () ↔
      InitialValues.is_valid_for expo ini decomp = true) := by
  unfold InitialValues.init_check
  by_cases h : InitialValues.is_valid_for expo ini decomp <;> simp [h]

/-- C8: For every step whose start and end points have equal values,
`step_transition_matrix` returns the identity matrix of dimension equal to
the operator's order, restricted to the requested rows (all of them when
`rows=None`), without consulting the summation backend; and for the
zero-order operator it returns the 0-by-0 matrix. -/
theorem claim_C8_trivial_cases (fails : Continuation.Step → ℚ → Bool)
    (order fuel : ℕ) (step : Continuation.Step) (eps : ℚ) (rowsArg : Option ℕ) :
    (order = 0 →
      Continuation.step_transition_matrix fails order (fuel + 1) step eps rowsArg =
        Except.ok Continuation.MatExpr.zeroByZero) ∧
    (order ≠ 0 → step.start.value = step.stop.value →
      Continuation.step_transition_matrix fails order (fuel + 1) step eps rowsArg =
        Except.ok (Continuation.MatExpr.identity order (rowsArg.getD order))) := by
  constructor
  · intro h0
    subst h0
    simp [Continuation.step_transition_matrix]
  · intro h0 hval
    simp [Continuation.step_transition_matrix, h0, hval]

/-- Witness for C8: a zero-order operator, and an order-2 operator on a
step whose two endpoints share the value 1. -/
theorem claim_C8_trivial_cases_witness :
    (Continuation.step_transition_matrix Instances.failsOn01 0 1
        Instances.stepSingOut 1 none =
      Except.ok Continuation.MatExpr.zeroByZero) ∧
    (Continuation.step_transition_matrix Instances.failsOn01 2 1
        { start := Instances.ordOne, stop := Instances.ordOne, max_split := 3 }
        1 none =
      Except.ok (Continuation.MatExpr.identity 2 2)) :=
  ⟨(claim_C8_trivial_cases Instances.failsOn01 0 0 Instances.stepSingOut 1 none).1 rfl,
   (claim_C8_trivial_cases Instances.failsOn01 2 0
      { start := Instances.ordOne, stop := Instances.ordOne, max_split := 3 }
      1 none).2 (by decide) rfl⟩

/-- C9: For every step from an ordinary start point into a regular
singular end point (with distinct values and a nonzero-order operator),
`step_transition_matrix` reverses the step (the singular point becomes the
start, with a fresh split budget of 3), halves the target error, and
returns the matrix inverse of the transition matrix computed for the
reversed step (errors of the reversed computation propagate unchanged). -/
theorem claim_C9_into_singular (fails : Continuation.Step → ℚ → Bool)
    (order fuel : ℕ) (step : Continuation.Step) (eps : ℚ) (rowsArg : Option ℕ)
    (h0 : order ≠ 0)
    (hval : step.start.value ≠ step.stop.value)
    (hz0 : step.start.is_ordinary = true)
    (hz1o : step.stop.is_ordinary = false)
    (hz1r : step.stop.is_regular = true) :
    Continuation.step_transition_matrix fails order (fuel + 1) step eps rowsArg =
      Except.map Continuation.MatExpr.inverse
        (Continuation.step_transition_matrix fails order (fuel + 1)
          { start := step.stop, stop := step.start, max_split := 3 }
          (eps / 2) rowsArg) := by
  have hvs : step.stop.value ≠ step.start.value := Ne.symm hval
  simp [Continuation.step_transition_matrix, Continuation.classify_step,
    h0, hz0, hz1o, hz1r, hval, hvs]
  cases Continuation.stm_try fails
      (Continuation.step_transition_matrix fails order fuel)
      { start := step.stop, stop := step.start, max_split := 3 } (eps / 2)
      (rowsArg.getD order) with
  | error e => rfl
  | ok m => rfl

/-- Witness for C9: the step `1 → 0` into the regular singular point `0`
for an order-1 operator. -/
theorem claim_C9_into_singular_witness :
    Continuation.step_transition_matrix Instances.failsOn01 1 1
        { start := Instances.ordOne, stop := Instances.singZero, max_split := 3 }
        1 none =
      Except.map Continuation.MatExpr.inverse
        (Continuation.step_transition_matrix Instances.failsOn01 1 1
          { start := Instances.singZero, stop := Instances.ordOne, max_split := 3 }
          (1 / 2) none) :=
  claim_C9_into_singular Instances.failsOn01 1 0
    { start := Instances.ordOne, stop := Instances.singZero, max_split := 3 }
    1 none (by decide) (by decide) rfl rfl rfl

/-- C3 (amended): When `step_transition_matrix` encounters a precision
failure on a step that is summed unreversed (ordinary exact → ordinary, or
regular singular → ordinary): if the split budget is exhausted
(`max_split = 0`) the failure propagates; otherwise the step is split into
two sub-steps with decremented budget — cut at its *midpoint* when both
endpoints are ordinary, but at the weighted point `(start + 2·end)/3` when
the start is (regular) singular — and the result is the matrix product
`m1 * m0` of the recursively computed sub-step transition matrices. -/
theorem claim_C3_split_on_failure (fails : Continuation.Step → ℚ → Bool)
    (order fuel : ℕ) (step : Continuation.Step) (eps : ℚ) (rowsArg : Option ℕ)
    (h0 : order ≠ 0)
    (hval : step.start.value ≠ step.stop.value)
    (hcls : (step.start.is_ordinary = true ∧ step.stop.is_ordinary = true ∧
        step.start.is_exact = true) ∨
      (step.start.is_ordinary = false ∧ step.start.is_regular = true ∧
        step.stop.is_ordinary = true))
    (hfail : fails step eps = true) :
    (step.max_split = 0 →
      Continuation.step_transition_matrix fails order (fuel + 1) step eps rowsArg =
        Except.error Continuation.Err.precisionError) ∧
    (step.max_split ≠ 0 →
      Continuation.step_transition_matrix fails order (fuel + 1) step eps rowsArg =
        (match Continuation.step_transition_matrix fails order fuel
            step.split.1 (eps / 4) none with
         | Except.error e => Except.error e
         | Except.ok m0 =>
           match Continuation.step_transition_matrix fails order fuel
               step.split.2 (eps / 4) (some (rowsArg.getD order)) with
           | Except.error e => Except.error e
           | Except.ok m1 => Except.ok (Continuation.MatExpr.mul m1 m0))) ∧
    step.split.1.start = step.start ∧
    step.split.2.stop = step.stop ∧
    step.split.1.stop = step.split.2.start ∧
    step.split.1.max_split = step.max_split - 1 ∧
    step.split.2.max_split = step.max_split - 1 ∧
    step.split.1.stop.value =
      (if step.start.is_ordinary then
        ((step.start.value.1 + step.stop.value.1) / 2,
         (step.start.value.2 + step.stop.value.2) / 2)
      else
        ((step.start.value.1 + 2 * step.stop.value.1) / 3,
         (step.start.value.2 + 2 * step.stop.value.2) / 3)) := by
  have hdisp : Continuation.classify_step step eps =
      Except.ok (step, false, eps) := by
    rcases hcls with ⟨ho1, ho2, hex⟩ | ⟨ho1, hor, ho2⟩
    · simp [Continuation.classify_step, ho1, ho2, hex]
    · simp [Continuation.classify_step, ho1, ho2, hor]
  refine ⟨?_, ?_, ?_, ?_, ?_, ?_, ?_, ?_⟩
  · intro hms
    simp [Continuation.step_transition_matrix, hdisp, h0, hval,
      Continuation.stm_try, hfail, hms]
  · intro hms
    simp only [Continuation.step_transition_matrix, hdisp, h0, hval,
      Continuation.stm_try, hfail, if_true, ite_true, ne_eq,
      not_false_eq_true, if_false]
    rw [if_neg hms]
    cases Continuation.step_transition_matrix fails order fuel
        step.split.1 (eps / 4) none with
    | error e => rfl
    | ok m0 =>
      cases Continuation.step_transition_matrix fails order fuel
          step.split.2 (eps / 4) (some (rowsArg.getD order)) with
      | error e => rfl
      | ok m1 => rfl
  · simp [Continuation.Step.split]
  · simp [Continuation.Step.split]
  · simp [Continuation.Step.split]
  · simp [Continuation.Step.split]
  · simp [Continuation.Step.split]
  · rcases hcls with ⟨ho1, ho2, hex⟩ | ⟨ho1, hor, ho2⟩ <;>
      simp [Continuation.Step.split, ho1, ho2]

/-- Witness for the amended C3, on the step `0 → 1` out of the regular
singular point `0` with one unit of split budget and a summation failure on
the full step. -/
theorem claim_C3_split_on_failure_witness :
    (Instances.stepSingOut.max_split = 0 →
      Continuation.step_transition_matrix Instances.failsOn01 1 (2 + 1)
          Instances.stepSingOut 1 none =
        Except.error Continuation.Err.precisionError) ∧
    (Instances.stepSingOut.max_split ≠ 0 →
      Continuation.step_transition_matrix Instances.failsOn01 1 (2 + 1)
          Instances.stepSingOut 1 none =
        (match Continuation.step_transition_matrix Instances.failsOn01 1 2
            Instances.stepSingOut.split.1 (1 / 4) none with
         | Except.error e => Except.error e
         | Except.ok m0 =>
           match Continuation.step_transition_matrix Instances.failsOn01 1 2
               Instances.stepSingOut.split.2 (1 / 4)
               (some ((none : Option ℕ).getD 1)) with
           | Except.error e => Except.error e
           | Except.ok m1 => Except.ok (Continuation.MatExpr.mul m1 m0))) ∧
    Instances.stepSingOut.split.1.start = Instances.stepSingOut.start ∧
    Instances.stepSingOut.split.2.stop = Instances.stepSingOut.stop ∧
    Instances.stepSingOut.split.1.stop = Instances.stepSingOut.split.2.start ∧
    Instances.stepSingOut.split.1.max_split = Instances.stepSingOut.max_split - 1 ∧
    Instances.stepSingOut.split.2.max_split = Instances.stepSingOut.max_split - 1 ∧
    Instances.stepSingOut.split.1.stop.value =
      (if Instances.stepSingOut.start.is_ordinary then
        ((Instances.stepSingOut.start.value.1 + Instances.stepSingOut.stop.value.1) / 2,
         (Instances.stepSingOut.start.value.2 + Instances.stepSingOut.stop.value.2) / 2)
      else
        ((Instances.stepSingOut.start.value.1 + 2 * Instances.stepSingOut.stop.value.1) / 3,
         (Instances.stepSingOut.start.value.2 + 2 * Instances.stepSingOut.stop.value.2) / 3)) :=
  claim_C3_split_on_failure Instances.failsOn01 1 2 Instances.stepSingOut 1 none
    (by decide) (by decide) (Or.inr ⟨rfl, rfl, rfl⟩) (by decide)

/-- Counterexample to C3 as stated: on the step `0 → 1` out of the regular
singular point `0`, with split budget left and a summation failure on the
full step, `step_transition_matrix` splits the step at `2/3` (one third of
the way from the ordinary end), not at its midpoint `1/2`. -/
theorem claim_C3_counterexample :
    Continuation.step_transition_matrix Instances.failsOn01 1 (2 + 1)
        Instances.stepSingOut 1 none =
      Except.ok (Continuation.MatExpr.mul
        (Continuation.MatExpr.summed Instances.stepSingOut.split.2 (1 / 4) 1)
        (Continuation.MatExpr.summed Instances.stepSingOut.split.1 (1 / 4) 1)) ∧
    Instances.stepSingOut.split.1.stop.value = (2 / 3, 0) ∧
    ((2 / 3 : ℚ), (0 : ℚ)) ≠
      ((Instances.stepSingOut.start.value.1 + Instances.stepSingOut.stop.value.1) / 2,
       (Instances.stepSingOut.start.value.2 + Instances.stepSingOut.stop.value.2) / 2) := by
  refine ⟨?_, ?_, ?_⟩
  · norm_num [Continuation.step_transition_matrix, Continuation.classify_step,
      Continuation.stm_try, Continuation.Step.split, Instances.stepSingOut,
      Instances.singZero, Instances.ordOne, Instances.failsOn01, Prod.ext_iff]
  · norm_num [Continuation.Step.split, Instances.stepSingOut,
      Instances.singZero, Instances.ordOne]
  · norm_num [Instances.stepSingOut, Instances.singZero, Instances.ordOne,
      Prod.ext_iff]

/-- Unfolding of the comparison by `sort_key_by_asympt` into its four
lexicographic stages: ascending real part of the valuation, then descending
log power, then descending absolute value of the imaginary part, then
ascending sign of the imaginary part. -/
theorem asympt_le_iff (a b : LocalSolutions.FundamentalSolution) :
    LocalSolutions.asympt_le a b ↔
      (a.valuation.1 < b.valuation.1 ∨
        (a.valuation.1 = b.valuation.1 ∧
          (b.log_power < a.log_power ∨
            (a.log_power = b.log_power ∧
              (|b.valuation.2| < |a.valuation.2| ∨
                (|a.valuation.2| = |b.valuation.2| ∧
                  LocalSolutions.qSign a.valuation.2 ≤
                    LocalSolutions.qSign b.valuation.2)))))) := by
  unfold LocalSolutions.asympt_le LocalSolutions.sort_key_by_asympt
  rw [Prod.Lex.le_iff]
  constructor
  · rintro (h | ⟨h1, h2⟩)
    · exact Or.inl h
    · refine Or.inr ⟨h1, ?_⟩
      rw [Prod.Lex.le_iff] at h2
      rcases h2 with h | ⟨h2a, h2b⟩
      · exact Or.inl (by exact_mod_cast neg_lt_neg_iff.mp h)
      · refine Or.inr ⟨by exact_mod_cast neg_inj.mp h2a, ?_⟩
        rw [Prod.Lex.le_iff] at h2b
        rcases h2b with h | ⟨h3a, h3b⟩
        · exact Or.inl (neg_lt_neg_iff.mp h)
        · exact Or.inr ⟨neg_inj.mp h3a, h3b⟩
  · rintro (h | ⟨h1, h2⟩)
    · exact Or.inl h
    · refine Or.inr ⟨h1, ?_⟩
      rw [Prod.Lex.le_iff]
      rcases h2 with h | ⟨h2a, h2b⟩
      · exact Or.inl (by exact_mod_cast neg_lt_neg_iff.mpr (by exact_mod_cast h))
      · refine Or.inr ⟨by exact_mod_cast neg_inj.mpr (by exact_mod_cast h2a), ?_⟩
        rw [Prod.Lex.le_iff]
        rcases h2b with h | ⟨h3a, h3b⟩
        · exact Or.inl (neg_lt_neg_iff.mpr h)
        · exact Or.inr ⟨neg_inj.mpr h3a, h3b⟩

/-- C1 (amended): Every list returned by `LocalBasisMapper.run` (and
hence by `local_basis_structure` at a regular singular point) is sorted by
the canonical asymptotic-dominance key — primarily by real part of the
valuation in *ascending* order (more divergent solutions, i.e. smaller real
parts, first), then by log power descending, then by magnitude (descending)
and sign (ascending) of the imaginary part as a deterministic tie-break. -/
theorem claim_C1_run_sorted (sl_decomp : List LocalSolutions.ShiftlessClass) :
    List.Pairwise (fun a b : LocalSolutions.FundamentalSolution =>
      a.valuation.1 < b.valuation.1 ∨
        (a.valuation.1 = b.valuation.1 ∧
          (b.log_power < a.log_power ∨
            (a.log_power = b.log_power ∧
              (|b.valuation.2| < |a.valuation.2| ∨
                (|a.valuation.2| = |b.valuation.2| ∧
                  LocalSolutions.qSign a.valuation.2 ≤
                    LocalSolutions.qSign b.valuation.2))))))
      (LocalSolutions.LocalBasisMapper_run sl_decomp) := by
  have h := List.sorted_insertionSort LocalSolutions.asympt_le
    (LocalSolutions.localBasisCols sl_decomp)
  exact h.imp (fun hab => (asympt_le_iff _ _).mp hab)

/-- Counterexample to C1 as stated: for the decomposition with leftmost
exponent `0` and simple shifts `0` and `1` (an order-2 ordinary-style
class), `run` returns the solutions with valuations `0, 1` in that order —
*ascending*, not descending, real parts. -/
theorem claim_C1_counterexample :
    (LocalSolutions.LocalBasisMapper_run Instances.decomp01).map
        (fun s => s.valuation.1) = [0, 1] ∧
    ¬ List.Pairwise (fun a b : LocalSolutions.FundamentalSolution =>
        a.valuation.1 ≥ b.valuation.1)
      (LocalSolutions.LocalBasisMapper_run Instances.decomp01) := by
  have hrun : LocalSolutions.LocalBasisMapper_run Instances.decomp01 =
      [{ leftmost := (0, 0), shift := 0, log_power := 0, value := none },
       { leftmost := (0, 0), shift := 1, log_power := 0, value := none }] := by
    norm_num [LocalSolutions.LocalBasisMapper_run, LocalSolutions.localBasisCols,
      Instances.decomp01, List.insertionSort, List.orderedInsert, asympt_le_iff,
      LocalSolutions.FundamentalSolution.valuation, LocalSolutions.qSign]
  constructor
  · rw [hrun]
    norm_num [LocalSolutions.FundamentalSolution.valuation]
  · rw [hrun]
    norm_num [LocalSolutions.FundamentalSolution.valuation]

/-- Auxiliary for C5: if the summation pass fails at the `k` working
precisions `p, 2p, …, 2^(k-1)·p`, the retry loop reaches working precision
exactly `2^k · p`. -/
theorem sum_autoprec_shift {M : Type} (doit : ℕ → Option M) :
    ∀ (k fuel p : ℕ), (∀ j, j < k → doit (2 ^ j * p) = none) →
      NaiveSum.sum_autoprec doit (k + fuel) p =
        NaiveSum.sum_autoprec doit fuel (2 ^ k * p)
  | 0, fuel, p, _ => by simp
  | k + 1, fuel, p, h => by
    have h0 : doit p = none := by simpa using h 0 (by omega)
    have hrec := sum_autoprec_shift doit k fuel (2 * p) (fun j hj => by
      have hj1 := h (j + 1) (by omega)
      have harg : 2 ^ j * (2 * p) = 2 ^ (j + 1) * p := by rw [pow_succ]; ring
      rw [harg]
      exact hj1)
    have hstep : k + 1 + fuel = (k + fuel) + 1 := by omega
    rw [hstep]
    show NaiveSum.sum_autoprec doit ((k + fuel) + 1) p = _
    rw [NaiveSum.sum_autoprec, h0, hrec]
    congr 1
    rw [pow_succ]
    ring

/-- C5: The working precision of the series summation driver is derived
from the requested error: the first pass runs at
`prec_from_eps(eps) + 3·nbits(prec_from_eps(eps))` bits (a function of
`eps` alone, not of any ambient default), and after `k` retryable precision
failures the driver runs at exactly `2^k` times the initial precision —
every retry doubles the working precision. -/
theorem claim_C5_working_precision {M : Type} (doit : ℕ → Option M)
    (fuel k : ℕ) (eps : ℚ)
    (hfailed : ∀ j, j < k → doit (2 ^ j * NaiveSum.initial_prec eps) = none)
    (hfuel : k ≤ fuel) :
    NaiveSum.initial_prec eps =
      NaiveSum.prec_from_eps eps + 3 * Nat.size (NaiveSum.prec_from_eps eps) ∧
    NaiveSum.series_sum_ordinary doit fuel eps =
      NaiveSum.sum_autoprec doit (fuel - k)
        (2 ^ k * NaiveSum.initial_prec eps) := by
  refine ⟨rfl, ?_⟩
  unfold NaiveSum.series_sum_ordinary
  calc NaiveSum.sum_autoprec doit fuel (NaiveSum.initial_prec eps)
      = NaiveSum.sum_autoprec doit (k + (fuel - k)) (NaiveSum.initial_prec eps) := by
        congr 1
        omega
    _ = NaiveSum.sum_autoprec doit (fuel - k) (2 ^ k * NaiveSum.initial_prec eps) :=
        sum_autoprec_shift doit k (fuel - k) _ hfailed

/-- Witness for C5: a pass that always fails, target error `1/4`, one
observed failure. -/
theorem claim_C5_working_precision_witness :
    NaiveSum.initial_prec (1 / 4) =
      NaiveSum.prec_from_eps (1 / 4) +
        3 * Nat.size (NaiveSum.prec_from_eps (1 / 4)) ∧
    NaiveSum.series_sum_ordinary (fun _ => (none : Option ℕ)) 2 (1 / 4) =
      NaiveSum.sum_autoprec (fun _ => (none : Option ℕ)) (2 - 1)
        (2 ^ 1 * NaiveSum.initial_prec (1 / 4)) :=
  claim_C5_working_precision (fun _ => none) 2 1 (1 / 4)
    (fun _ _ => rfl) (by omega)

/-- Auxiliary: the `i`-th entry of `(range m).map f`, with default. -/
theorem getD_map_range {C : Type} (f : ℕ → C) (m i : ℕ) (d : C) :
    ((List.range m).map f).getD i d = if i < m then f i else d := by
  rcases lt_or_ge i m with h | h
  · rw [List.getD_eq_getElem?_getD, List.getElem?_map, List.getElem?_range h]
    simp [h]
  · rw [List.getD_eq_getElem?_getD, List.getElem?_eq_none (by simpa using h)]
    simp [Nat.not_lt.mpr h]

/-- Auxiliary: jet addition is coefficientwise. -/
theorem addJet_getD {C : Type} [Field C] (a b : List C) (i : ℕ) :
    (LogSeries.addJet a b).getD i 0 = a.getD i 0 + b.getD i 0 := by
  unfold LogSeries.addJet
  rw [getD_map_range]
  rcases lt_or_ge i (max a.length b.length) with h | h
  · simp [h]
  · have ha : a.getD i 0 = 0 :=
      List.getD_eq_default _ _ (le_trans (le_max_left _ _) h)
    have hb : b.getD i 0 = 0 :=
      List.getD_eq_default _ _ (le_trans (le_max_right _ _) h)
    rw [if_neg (Nat.not_lt.mpr h), ha, hb, add_zero]

/-- Auxiliary: a sum of jets is a coefficientwise sum. -/
theorem jetSum_getD {C : Type} [Field C] (l : List (List C)) (i : ℕ) :
    (LogSeries.jetSum l).getD i 0 = (l.map (fun a => a.getD i 0)).sum := by
  induction l with
  | nil => simp [LogSeries.jetSum]
  | cons a t ih =>
    have hcons : LogSeries.jetSum (a :: t) = LogSeries.addJet a (LogSeries.jetSum t) := rfl
    rw [hcons, addJet_getD, ih, List.map_cons, List.sum_cons]

/-- Auxiliary for C6: closed form of one entry of `log_series_values` — the
sum of the per-branch terms divided by the number of branches. -/
theorem lsv_entry {C : Type} [Field C] (dat : LogSeries.LogPointData C)
    (jet_order : ℕ) (psum : List (List C)) (bs : List ℤ)
    (downshift : List ℕ) (j i : ℕ)
    (hj : j < downshift.length) (hi : i < jet_order) :
    ((LogSeries.log_series_values dat jet_order psum bs downshift).getD j []).getD i 0 =
      (bs.map (fun b =>
        (LogSeries.branchTerm dat jet_order psum (downshift.getD j 0) b).getD i 0)).sum /
      (bs.length : C) := by
  unfold LogSeries.log_series_values
  have houter :
      ∀ (f : ℕ → List C),
        (downshift.map f).getD j [] = f downshift[j] := by
    intro f
    rw [List.getD_eq_getElem?_getD, List.getElem?_map,
      List.getElem?_eq_getElem hj]
    rfl
  rw [houter]
  rw [getD_map_range, if_pos hi, jetSum_getD, List.map_map]
  have hd : downshift.getD j 0 = downshift[j] := by
    rw [List.getD_eq_getElem?_getD, List.getElem?_eq_getElem hj]
    rfl
  rw [hd]
  rfl

/-- C6: For every numeric evaluation jet whose branch specification has
more than one branch index, `log_series_values` returns, entry by entry,
the uniform arithmetic mean of the per-branch results: the sum over the
branch indices `b` of the value it would compute for the single branch
`(b,)` (which uses `log(pt) + 2πi·b` and `exp(2πi·b·expo)·pt^expo`, see
`branchTerm`), divided by the number of branch indices. -/
theorem claim_C6_branch_averaging {C : Type} [Field C]
    (dat : LogSeries.LogPointData C) (jet_order : ℕ) (psum : List (List C))
    (branch : List ℤ) (downshift : List ℕ) (j i : ℕ)
    (hbr : 1 < branch.length) (hj : j < downshift.length) (hi : i < jet_order) :
    ((LogSeries.log_series_values dat jet_order psum branch downshift).getD j []).getD i 0 =
      ((branch.map (fun b =>
        ((LogSeries.log_series_values dat jet_order psum [b] downshift).getD j []).getD i 0)).sum) /
      (branch.length : C) := by
  have hsingle : ∀ b : ℤ,
      ((LogSeries.log_series_values dat jet_order psum [b] downshift).getD j []).getD i 0 =
        (LogSeries.branchTerm dat jet_order psum (downshift.getD j 0) b).getD i 0 := by
    intro b
    rw [lsv_entry dat jet_order psum [b] downshift j i hj hi]
    simp
  simp only [hsingle]
  exact lsv_entry dat jet_order psum branch downshift j i hj hi

/-- Witness for C6: two branches `0` and `1` over `ℚ`, one log power,
jet order 1. -/
theorem claim_C6_branch_averaging_witness :
    1 < ([0, 1] : List ℤ).length ∧
    ((LogSeries.log_series_values Instances.datQ 1 [[1]] [0, 1] [0]).getD 0 []).getD 0 0 =
      ((([0, 1] : List ℤ).map (fun b =>
        ((LogSeries.log_series_values Instances.datQ 1 [[1]] [b] [0]).getD 0 []).getD 0 0)).sum) /
      ((([0, 1] : List ℤ).length : ℚ)) :=
  ⟨by decide,
    claim_C6_branch_averaging Instances.datQ 1 [[1]] [0, 1] [0] 0 0
      (by decide) (by decide) (by decide)⟩
